import Mathlib

/-!
Verification development for the meeting-mind audio pipeline
(`src/main.js`): the frame sampler, the per-source voice-activity
state machine (VAD), utterance finalization, and the transcript
reconciler.  Each definition is a shallow embedding of the
corresponding JavaScript function; timestamps are integers
(milliseconds), JavaScript numbers are rationals (with square roots
taken in `ℝ` where the source calls `Math.sqrt`), buffers are lists,
and file-system effects are modelled as an explicit association list
of files plus a log of dispatched utterances.
-/

namespace MeetingMind

/-! ## Frame sampler

`extractSamplesFromBuffer` (main.js lines 250-253) views a raw byte
buffer as 16-bit little-endian signed PCM samples; a trailing odd byte
is ignored because the constructed view has `buffer.length / 2`
(truncated) elements.  `calculateAmplitude` (lines 261-277) takes
every `step`-th sample with `step = max 1 (length / 100)`, sums the
squares, and returns the RMS `sqrt (sum / count)`, or `0` when no
sample was examined. -/

/-- Decode one little-endian signed 16-bit sample from two bytes. -/
def int16OfBytes (lo hi : ℕ) : ℤ :=
  let u : ℕ := lo % 256 + 256 * (hi % 256)
  if u < 32768 then (u : ℤ) else (u : ℤ) - 65536

/-- Model of `extractSamplesFromBuffer` (main.js 250-253): interpret the byte
buffer as 16-bit signed PCM; a trailing odd byte is dropped. -/
def extractSamplesFromBuffer : List ℕ → List ℤ
  | lo :: hi :: rest => int16OfBytes lo hi :: extractSamplesFromBuffer rest
  | _ => []

/-- Indices visited by the subsampling loop
`for (i = 0; i < n; i += step)`. -/
def sampleIndices (n step : ℕ) : List ℕ :=
  (List.range n).filter (fun i => i % step == 0)

/-- The radicand `sum / count` of `calculateAmplitude` (main.js
261-277): mean of the squares of every `step`-th sample, `0` when no
sample is examined. -/
def amplitudeMeanSquare (samples : List ℤ) : ℚ :=
  let step : ℕ := max 1 (samples.length / 100)
  let idx := sampleIndices samples.length step
  let sum : ℤ := idx.foldl (fun acc i => acc + samples.getD i 0 * samples.getD i 0) 0
  let count : ℕ := idx.length
  if count = 0 then 0 else (sum : ℚ) / (count : ℚ)

/-- Model of `calculateAmplitude` (main.js 261-277): RMS of the subsampled
squares, `Math.sqrt` modelled by `Real.sqrt`. -/
noncomputable def calculateAmplitude (samples : List ℤ) : ℝ :=
  let step : ℕ := max 1 (samples.length / 100)
  let idx := sampleIndices samples.length step
  let count : ℕ := idx.length
  if count = 0 then 0 else Real.sqrt (amplitudeMeanSquare samples)

theorem foldl_add_sq_le (s : List ℤ) :
    ∀ (l : List ℕ) (acc : ℤ),
      acc ≤ l.foldl (fun a i => a + s.getD i 0 * s.getD i 0) acc
  | [], _ => le_refl _
  | i :: l, acc =>
      le_trans (le_add_of_nonneg_right (mul_self_nonneg (s.getD i 0)))
        (foldl_add_sq_le s l (acc + s.getD i 0 * s.getD i 0))

theorem foldl_add_sq_zero (s : List ℤ) (hs : ∀ i, s.getD i 0 = 0) :
    ∀ (l : List ℕ) (acc : ℤ),
      l.foldl (fun a i => a + s.getD i 0 * s.getD i 0) acc = acc
  | [], _ => rfl
  | i :: l, acc => by
      rw [List.foldl_cons, hs i]
      simpa using foldl_add_sq_zero s hs l acc

theorem getD_zero_of_all_zero :
    ∀ (l : List ℤ), (∀ x ∈ l, x = (0 : ℤ)) → ∀ i, l.getD i 0 = 0
  | [], _, i => by cases i <;> rfl
  | x :: l, h, 0 => h x (by simp)
  | _ :: l, h, (i + 1) => by
      simpa [List.getD_cons_succ] using
        getD_zero_of_all_zero l (fun y hy => h y (by simp [hy])) i

theorem extractSamples_all_zero :
    ∀ (bytes : List ℕ), (∀ b ∈ bytes, b = 0) →
      ∀ x ∈ extractSamplesFromBuffer bytes, x = (0 : ℤ)
  | [], _, x, hx => by simp [extractSamplesFromBuffer] at hx
  | [_], _, x, hx => by simp [extractSamplesFromBuffer] at hx
  | lo :: hi :: rest, h, x, hx => by
      rw [extractSamplesFromBuffer] at hx
      rcases List.mem_cons.mp hx with h1 | h2
      · have hlo : lo = 0 := h lo (by simp)
        have hhi : hi = 0 := h hi (by simp)
        subst hlo; subst hhi; subst h1; decide
      · exact extractSamples_all_zero rest (fun b hb => h b (by simp [hb])) x h2

theorem amplitudeMeanSquare_nonneg (samples : List ℤ) :
    0 ≤ amplitudeMeanSquare samples := by
  rw [amplitudeMeanSquare]
  split
  · exact le_refl _
  · refine div_nonneg ?_ (by positivity)
    exact_mod_cast foldl_add_sq_le samples _ 0

theorem amplitudeMeanSquare_zero_of_all_zero (samples : List ℤ)
    (h : ∀ x ∈ samples, x = (0 : ℤ)) :
    amplitudeMeanSquare samples = 0 := by
  rw [amplitudeMeanSquare]
  split
  · rfl
  · rw [foldl_add_sq_zero samples (getD_zero_of_all_zero samples h)]
    simp

theorem calculateAmplitude_nonneg (samples : List ℤ) :
    0 ≤ calculateAmplitude samples := by
  rw [calculateAmplitude]
  split
  · exact le_refl _
  · exact Real.sqrt_nonneg _

theorem calculateAmplitude_zero_of_all_zero (samples : List ℤ)
    (h : ∀ x ∈ samples, x = (0 : ℤ)) :
    calculateAmplitude samples = 0 := by
  rw [calculateAmplitude]
  split
  · rfl
  · rw [amplitudeMeanSquare_zero_of_all_zero samples h]
    simp

theorem extractSamples_snoc :
    ∀ (bytes : List ℕ), bytes.length % 2 = 0 → ∀ b,
      extractSamplesFromBuffer (bytes ++ [b]) = extractSamplesFromBuffer bytes
  | [], _, b => rfl
  | [_], h, _ => by simp at h
  | lo :: hi :: rest, h, b => by
      have hr : rest.length % 2 = 0 := by
        simp only [List.length_cons] at h
        omega
      simp only [List.cons_append, extractSamplesFromBuffer, List.append_eq]
      rw [extractSamples_snoc rest hr b]

/-- C3: the loudness computation is total: it is defined (hence
terminates without error) on every byte buffer, including odd-length
buffers whose trailing byte is ignored; it is always nonnegative, and
it is exactly `0` on the empty buffer and on any all-zero buffer. -/
theorem loudness_total_nonneg_zero :
    (∀ bytes : List ℕ,
        0 ≤ calculateAmplitude (extractSamplesFromBuffer bytes)) ∧
    calculateAmplitude (extractSamplesFromBuffer []) = 0 ∧
    (∀ bytes : List ℕ, (∀ b ∈ bytes, b = 0) →
        calculateAmplitude (extractSamplesFromBuffer bytes) = 0) ∧
    (∀ (bytes : List ℕ) (b : ℕ), bytes.length % 2 = 0 →
        extractSamplesFromBuffer (bytes ++ [b]) =
          extractSamplesFromBuffer bytes) := by
  refine ⟨fun bytes => calculateAmplitude_nonneg _, ?_, ?_, ?_⟩
  · exact calculateAmplitude_zero_of_all_zero _ (by intro x hx; cases hx)
  · intro bytes h
    exact calculateAmplitude_zero_of_all_zero _ (extractSamples_all_zero bytes h)
  · intro bytes b h
    exact extractSamples_snoc bytes h b

/-- C3 witness: the theorem applied at concrete buffers, discharging
the hypotheses of its conditional conjuncts. -/
theorem loudness_total_nonneg_zero_witness :
    calculateAmplitude (extractSamplesFromBuffer [0, 0, 0, 0]) = 0 ∧
    extractSamplesFromBuffer [1, 2, 7] = extractSamplesFromBuffer [1, 2] := by
  refine ⟨loudness_total_nonneg_zero.2.2.1 [0, 0, 0, 0] (by decide), ?_⟩
  have h := loudness_total_nonneg_zero.2.2.2 [1, 2] 7 (by decide)
  simpa using h

/-! ## Text similarity

`main.js` declares `calculateTextSimilarity` twice at the top level
(lines 520-550 and 2560-2586); in JavaScript the later function
declaration shadows the earlier one, so the copy at 2560 is the one
the reconciler actually calls.  Both copies are embedded.  Strings
are normalized by lowercasing then trimming; `String.prototype.split`
on a whitespace regex is modelled on the (always trimmed) inputs it
receives: the empty string yields one empty token, any other trimmed
string yields its maximal runs of non-whitespace characters. -/

/-- Whitespace characters recognized by the model of `\s`. -/
def isWsChar (c : Char) : Bool :=
  c == ' ' || c == '\t' || c == '\n' || c == '\r'

/-- Lowercasing, `toLowerCase`, on the character list of a string (ASCII model). -/
def lowerChars (l : List Char) : List Char := l.map Char.toLower

/-- Trimming, `trim`: drop whitespace from both ends. -/
def trimChars (l : List Char) : List Char :=
  ((l.dropWhile isWsChar).reverse.dropWhile isWsChar).reverse

/-- Splitting with `split` on a whitespace regex, on a trimmed string: the empty string gives one
empty token (as in JavaScript), otherwise the maximal runs of
non-whitespace characters. -/
def splitWs (l : List Char) : List (List Char) :=
  l.foldr
    (fun c acc =>
      match acc with
      | [] => [[c]]
      | w :: ws =>
          if isWsChar c then (if w.isEmpty then w :: ws else [] :: w :: ws)
          else (c :: w) :: ws)
    [[]]

/-- Whether `needle` is a prefix of `hay` (character-wise). -/
def charsPrefixOf : List Char → List Char → Bool
  | [], _ => true
  | _ :: _, [] => false
  | a :: as, b :: bs => a == b && charsPrefixOf as bs

/-- Model of `hay.includes(needle)`: contiguous substring test. -/
def charsIncludes : List Char → List Char → Bool
  | [], needle => needle.isEmpty
  | c :: t, needle => charsPrefixOf needle (c :: t) || charsIncludes t needle

/-- Model of `calculateTextSimilarity` (main.js 2560-2586, the effective copy):
empty input gives 0; after normalization exact equality gives 1,
substring containment in either direction gives 0.9, otherwise the
word-overlap count divided by the union size. -/
def calculateTextSimilarity (text1 text2 : String) : ℚ :=
  if text1 = "" ∨ text2 = "" then 0
  else
    let a := trimChars (lowerChars text1.data)
    let b := trimChars (lowerChars text2.data)
    if a = b then 1
    else if charsIncludes a b then 9 / 10
    else if charsIncludes b a then 9 / 10
    else
      let setA := (splitWs a).dedup
      let setB := (splitWs b).dedup
      let inter := setA.foldl (fun n w => if w ∈ setB then n + 1 else n) 0
      let union := setA.length + setB.length - inter
      if union = 0 then 0 else (inter : ℚ) / (union : ℚ)

/-- Model of `calculateTextSimilarity` (main.js 520-550, the shadowed first
copy): no containment rule, but word-set sizes differing by more than
3 give 0.3. -/
def calculateTextSimilarityV1 (text1 text2 : String) : ℚ :=
  if text1 = "" ∨ text2 = "" then 0
  else
    let a := trimChars (lowerChars text1.data)
    let b := trimChars (lowerChars text2.data)
    if a = b then 1
    else
      let setA := (splitWs a).dedup
      let setB := (splitWs b).dedup
      if 3 < ((setA.length : ℤ) - (setB.length : ℤ)).natAbs then 3 / 10
      else
        let inter := setA.foldl (fun n w => if w ∈ setB then n + 1 else n) 0
        let union := setA.length + setB.length - inter
        if union = 0 then 0 else (inter : ℚ) / (union : ℚ)

/-- Modelled from the spec: Jaccard similarity over
whitespace-tokenized, lowercased word sets, with exact equality after
trim/lowercase short-circuiting to 1 and no other rule. -/
def jaccardSimilaritySpec (text1 text2 : String) : ℚ :=
  let a := trimChars (lowerChars text1.data)
  let b := trimChars (lowerChars text2.data)
  if a = b then 1
  else
    let A := (splitWs a).toFinset
    let B := (splitWs b).toFinset
    ((A ∩ B).card : ℚ) / ((A ∪ B).card : ℚ)

/-- The spec-side description amended with the containment rule of
the effective copy: equality gives 1, substring containment gives 0.9,
otherwise set-theoretic Jaccard. -/
def similarityContainmentSpec (text1 text2 : String) : ℚ :=
  let a := trimChars (lowerChars text1.data)
  let b := trimChars (lowerChars text2.data)
  if a = b then 1
  else if charsIncludes a b ∨ charsIncludes b a then 9 / 10
  else
    let A := (splitWs a).toFinset
    let B := (splitWs b).toFinset
    ((A ∩ B).card : ℚ) / ((A ∪ B).card : ℚ)

/-- The spec-side description amended with the size-gap rule of the
shadowed first copy: equality gives 1, word-set cardinalities
differing by more than 3 give 0.3, otherwise set-theoretic Jaccard. -/
def similaritySizeGapSpec (text1 text2 : String) : ℚ :=
  let a := trimChars (lowerChars text1.data)
  let b := trimChars (lowerChars text2.data)
  if a = b then 1
  else
    let A := (splitWs a).toFinset
    let B := (splitWs b).toFinset
    if 3 < ((A.card : ℤ) - (B.card : ℤ)).natAbs then 3 / 10
    else ((A ∩ B).card : ℚ) / ((A ∪ B).card : ℚ)

theorem foldl_count_eq_countP (setB : List (List Char)) :
    ∀ (l : List (List Char)) (acc : ℕ),
      l.foldl (fun n w => if w ∈ setB then n + 1 else n) acc =
        acc + l.countP (fun w => decide (w ∈ setB))
  | [], acc => by simp
  | w :: l, acc => by
      rw [List.foldl_cons, foldl_count_eq_countP setB l]
      by_cases h : w ∈ setB
      · simp only [List.countP_cons, h, if_true, decide_True]
        omega
      · simp [List.countP_cons, h]

theorem dedup_toFinset (l : List (List Char)) :
    l.dedup.toFinset = l.toFinset := by
  ext x
  simp

theorem inter_count_eq_card (A B : List (List Char)) :
    A.dedup.countP (fun w => decide (w ∈ B.dedup)) =
      (A.toFinset ∩ B.toFinset).card := by
  rw [List.countP_eq_length_filter]
  have hnd : (A.dedup.filter (fun w => decide (w ∈ B.dedup))).Nodup :=
    (List.nodup_dedup A).filter _
  rw [← hnd.dedup, ← List.card_toFinset, List.toFinset_filter,
    dedup_toFinset]
  congr 1
  ext x
  simp [Finset.mem_filter, List.mem_dedup]

theorem union_count_eq_card (A B : List (List Char)) :
    A.dedup.length + B.dedup.length -
        A.dedup.countP (fun w => decide (w ∈ B.dedup)) =
      (A.toFinset ∪ B.toFinset).card := by
  have hci := inter_count_eq_card A B
  have h := Finset.card_union_add_card_inter A.toFinset B.toFinset
  rw [List.card_toFinset, List.card_toFinset] at h
  omega

theorem jaccard_loop_eq (A B : List (List Char)) :
    (if A.dedup.length + B.dedup.length -
          A.dedup.foldl (fun n w => if w ∈ B.dedup then n + 1 else n) 0 = 0
      then (0 : ℚ)
      else ((A.dedup.foldl (fun n w => if w ∈ B.dedup then n + 1 else n) 0 : ℕ) : ℚ) /
        ((A.dedup.length + B.dedup.length -
            A.dedup.foldl (fun n w => if w ∈ B.dedup then n + 1 else n) 0 : ℕ) : ℚ)) =
      ((A.toFinset ∩ B.toFinset).card : ℚ) / ((A.toFinset ∪ B.toFinset).card : ℚ) := by
  rw [foldl_count_eq_countP B.dedup A.dedup 0, Nat.zero_add,
    inter_count_eq_card]
  have hu : A.dedup.length + B.dedup.length -
      (A.toFinset ∩ B.toFinset).card = (A.toFinset ∪ B.toFinset).card := by
    rw [← inter_count_eq_card]
    exact union_count_eq_card A B
  rw [hu]
  split
  · rename_i h0
    rw [h0]
    simp
  · rfl

/-- C2 counterexample: at the non-empty texts "a" and "a b c d e" the
effective similarity returns 0.9 (containment rule) and the shadowed
first copy returns 0.3 (size-gap rule), while Jaccard similarity over
the word sets is 1/5 — so similarity does not equal Jaccard with only
the exact-equality shortcut. -/
theorem calculateTextSimilarity_not_jaccard :
    calculateTextSimilarity "a" "a b c d e" = 9 / 10 ∧
    calculateTextSimilarityV1 "a" "a b c d e" = 3 / 10 ∧
    jaccardSimilaritySpec "a" "a b c d e" = 1 / 5 ∧
    (9 / 10 : ℚ) ≠ 1 / 5 ∧ (3 / 10 : ℚ) ≠ 1 / 5 := by
  refine ⟨?_, ?_, ?_, by norm_num, by norm_num⟩
  · simp +decide [calculateTextSimilarity]
  · simp +decide [calculateTextSimilarityV1]
  · simp only [jaccardSimilaritySpec]
    rw [if_neg (by decide)]
    have h1 : ((splitWs (trimChars (lowerChars ("a" : String).data))).toFinset ∩
        (splitWs (trimChars (lowerChars ("a b c d e" : String).data))).toFinset).card = 1 := by
      decide
    have h2 : ((splitWs (trimChars (lowerChars ("a" : String).data))).toFinset ∪
        (splitWs (trimChars (lowerChars ("a b c d e" : String).data))).toFinset).card = 5 := by
      decide
    rw [h1, h2]
    norm_num

/-- C2 amended: for non-empty texts, the effective similarity equals
Jaccard over the whitespace-tokenized lowercased word sets, except
that exact equality after trim/lowercase gives 1.0 and substring
containment of one normalized text in the other gives 0.9; the
shadowed first copy instead returns 0.3 when the word-set sizes
differ by more than 3.  No other rule changes the returned value. -/
theorem calculateTextSimilarity_eq_amended (t1 t2 : String)
    (h1 : ¬t1 = "") (h2 : ¬t2 = "") :
    calculateTextSimilarity t1 t2 = similarityContainmentSpec t1 t2 ∧
    calculateTextSimilarityV1 t1 t2 = similaritySizeGapSpec t1 t2 := by
  constructor
  · simp only [calculateTextSimilarity, similarityContainmentSpec]
    rw [if_neg (by simp [h1, h2])]
    by_cases hab :
        trimChars (lowerChars t1.data) = trimChars (lowerChars t2.data)
    · simp [hab]
    · simp only [if_neg hab]
      by_cases hi1 : charsIncludes (trimChars (lowerChars t1.data))
          (trimChars (lowerChars t2.data)) = true
      · simp [hi1]
      · by_cases hi2 : charsIncludes (trimChars (lowerChars t2.data))
            (trimChars (lowerChars t1.data)) = true
        · simp [hi1, hi2]
        · simp only [hi1, hi2, if_false, Bool.false_eq_true, or_self]
          exact jaccard_loop_eq _ _
  · simp only [calculateTextSimilarityV1, similaritySizeGapSpec]
    rw [if_neg (by simp [h1, h2])]
    by_cases hab :
        trimChars (lowerChars t1.data) = trimChars (lowerChars t2.data)
    · simp [hab]
    · simp only [if_neg hab]
      rw [List.card_toFinset, List.card_toFinset]
      by_cases hgap : 3 <
          (((splitWs (trimChars (lowerChars t1.data))).dedup.length : ℤ) -
            ((splitWs (trimChars (lowerChars t2.data))).dedup.length : ℤ)).natAbs
      · simp [hgap]
      · simp only [if_neg hgap]
        exact jaccard_loop_eq _ _

/-- C2 witness: the amended theorem applied at concrete non-empty
texts. -/
theorem calculateTextSimilarity_eq_amended_witness :
    ¬("hello there" : String) = "" ∧ ¬("hello world" : String) = "" ∧
    (calculateTextSimilarity "hello there" "hello world" =
        similarityContainmentSpec "hello there" "hello world" ∧
      calculateTextSimilarityV1 "hello there" "hello world" =
        similaritySizeGapSpec "hello there" "hello world") :=
  ⟨by decide, by decide,
    calculateTextSimilarity_eq_amended "hello there" "hello world"
      (by decide) (by decide)⟩

/-! ## Voice activity detection

`processAudioForVAD` (main.js 61-182) and `finalizeUtterance`
(190-242) for one source.  The frame's loudness is the
`calculateAmplitude` value of its samples; the state machine is
modelled over that rational loudness input.  Timestamps are integer
milliseconds.  File-system effects (the WAV file per utterance) are
an association list from path id (`utteranceCount`) to the list of
appended frame buffers; dispatching an utterance to transcription
(`transcribeAudioChunk`) is recorded in a log.  JavaScript `null`
coercions are modelled exactly: `!state.utteranceStart` is true for
`null` and `0`, and `now - state.silenceStart` treats `null` as 0. -/

/-- The reason string passed to `finalizeUtterance`. -/
inductive VadReason
  | silence
  | maxDuration
  | bufferLimit
  | streamClosed
  | recordingStopped
deriving DecidableEq, Repr

/-- The VAD tuning constants (main.js 40-47); parameters of the
model, with the source constants as defaults. -/
structure VadConfig where
  speechThreshold : ℚ
  silenceThreshold : ℚ
  silenceDurationMs : ℤ
  minUtteranceMs : ℤ
  maxUtteranceMs : ℤ
  bufferLimit : ℕ
deriving DecidableEq, Repr

/-- The source's constant configuration (main.js 40-47). -/
def defaultVadConfig : VadConfig :=
  ⟨80, 50, 1500, 500, 15000, 1000⟩

/-- One entry of `vadState` (main.js 473-496). -/
structure VadState where
  isActive : Bool
  isSilence : Bool
  utteranceStart : Option ℤ
  silenceStart : Option ℤ
  audioBuffers : List ℕ
  frameCount : ℕ
  lastAmplitude : ℚ
  audioPath : Option ℕ
  utteranceCount : ℕ
deriving DecidableEq, Repr

/-- The initial per-source state (main.js 474-484). -/
def initialVadState : VadState :=
  ⟨false, true, none, none, [], 0, 0, none, 0⟩

/-- A call of `transcribeAudioChunk` on a finalized utterance. -/
structure Dispatch where
  path : ℕ
  durationMs : ℤ
  reason : VadReason
deriving DecidableEq, Repr

/-- Mutable world of one source: its state, the WAV files on disk
(path id, appended frame buffers) and the dispatch log. -/
structure VadWorld where
  state : VadState
  files : List (ℕ × List ℕ)
  dispatches : List Dispatch
deriving DecidableEq, Repr

def initialVadWorld : VadWorld := ⟨initialVadState, [], []⟩

/-- JavaScript truthiness of a nullable timestamp: `null` and `0`
are falsy. -/
def jsTimeFalsy : Option ℤ → Bool
  | none => true
  | some v => v == 0

/-- Model of `fs.existsSync`. -/
def fsExists (p : ℕ) (fs : List (ℕ × List ℕ)) : Bool :=
  fs.any (fun e => e.1 == p)

/-- Read a file's appended buffers. -/
def fsGet (p : ℕ) (fs : List (ℕ × List ℕ)) : Option (List ℕ) :=
  (fs.find? (fun e => e.1 == p)).map (fun e => e.2)

/-- Model of `initializeWavFile` via `fs.writeFileSync`: create or truncate. -/
def fsWrite (p : ℕ) (fs : List (ℕ × List ℕ)) : List (ℕ × List ℕ) :=
  if fsExists p fs then fs.map (fun e => if e.1 == p then (p, []) else e)
  else fs ++ [(p, [])]

/-- Model of `appendToWavFile` via `fs.appendFileSync`: append, creating the
file when missing. -/
def fsAppend (p : ℕ) (buf : ℕ) (fs : List (ℕ × List ℕ)) : List (ℕ × List ℕ) :=
  if fsExists p fs then
    fs.map (fun e => if e.1 == p then (e.1, e.2 ++ [buf]) else e)
  else fs ++ [(p, [buf])]

/-- Model of `fs.unlinkSync`. -/
def fsDelete (p : ℕ) (fs : List (ℕ × List ℕ)) : List (ℕ × List ℕ) :=
  fs.filter (fun e => !(e.1 == p))

/-- Model of `finalizeUtterance` (main.js 190-242): on an inactive state only
reset; otherwise dispatch the utterance when its duration reaches
`minUtteranceMs` (and the file exists), or delete the too-short
file, then reset the state. -/
def finalizeUtterance (cfg : VadConfig) (now : ℤ) (reason : VadReason)
    (w : VadWorld) : VadWorld :=
  let s := w.state
  if !s.isActive || jsTimeFalsy s.utteranceStart then
    { w with state :=
        { s with isActive := false, isSilence := true, audioBuffers := [] } }
  else
    let dur := now - s.utteranceStart.getD 0
    let w1 :=
      if cfg.minUtteranceMs ≤ dur then
        -- finalizeWavFile patches size fields in place (not observable
        -- in the model); the utterance is sent iff its file exists
        match s.audioPath with
        | some p =>
            if fsExists p w.files then
              { w with dispatches := w.dispatches ++ [⟨p, dur, reason⟩] }
            else w
        | none => w
      else
        match s.audioPath with
        | some p =>
            if fsExists p w.files then { w with files := fsDelete p w.files }
            else w
        | none => w
    { w1 with state :=
        { w1.state with
          isActive := false
          isSilence := true
          utteranceStart := none
          silenceStart := none
          audioBuffers := []
          audioPath := none } }

/-- Model of `processAudioForVAD` (main.js 61-182) for one frame, with the
frame's loudness (`calculateAmplitude` of its samples) passed in as
`amplitude` and the raw frame bytes as the buffer id `buf`. -/
def processAudioForVAD (cfg : VadConfig) (now : ℤ) (amplitude : ℚ)
    (buf : ℕ) (w : VadWorld) : VadWorld :=
  let w := { w with state := { w.state with lastAmplitude := amplitude } }
  -- safety valve (lines 90-99)
  let w :=
    if cfg.bufferLimit < w.state.audioBuffers.length then
      if w.state.isActive then finalizeUtterance cfg now .bufferLimit w
      else { w with state := { w.state with audioBuffers := [] } }
    else w
  -- always store the frame (lines 101-103)
  let w := { w with state :=
      { w.state with
        audioBuffers := w.state.audioBuffers ++ [buf]
        frameCount := w.state.frameCount + 1 } }
  let s := w.state
  if !s.isActive then
    -- lines 106-126: possibly open a new utterance
    if cfg.speechThreshold < amplitude then
      let cnt := s.utteranceCount + 1
      { w with
        state := { s with
          isActive := true
          isSilence := false
          utteranceStart := some now
          silenceStart := none
          utteranceCount := cnt
          audioPath := some cnt }
        files := fsWrite cnt w.files }
    else w
  else
    -- lines 128-181: inside an active utterance
    let dur := now - s.utteranceStart.getD 0
    if cfg.maxUtteranceMs < dur then
      -- force split; note: returns before appending this frame
      let w := finalizeUtterance cfg now .maxDuration w
      if cfg.speechThreshold < amplitude then
        let s := w.state
        let cnt := s.utteranceCount + 1
        { w with
          state := { s with
            isActive := true
            isSilence := false
            utteranceStart := some now
            utteranceCount := cnt
            audioPath := some cnt }
          files := fsWrite cnt w.files }
      else w
    else
      -- line 152-154: append the frame to the utterance file
      let w :=
        match s.audioPath with
        | some p => { w with files := fsAppend p buf w.files }
        | none => w
      let s := w.state
      if amplitude < cfg.silenceThreshold then
        if !s.isSilence then
          { w with state :=
              { s with isSilence := true, silenceStart := some now } }
        else
          if cfg.silenceDurationMs < now - s.silenceStart.getD 0 then
            finalizeUtterance cfg now .silence w
          else w
      else
        if s.isSilence then
          { w with state :=
              { s with isSilence := false, silenceStart := none } }
        else w

/-- One incoming frame: arrival time, loudness, buffer id. -/
structure VadFrame where
  time : ℤ
  amplitude : ℚ
  buf : ℕ
deriving DecidableEq, Repr

/-- Push a sequence of frames through the VAD. -/
def vadRun (cfg : VadConfig) (frames : List VadFrame) (w : VadWorld) : VadWorld :=
  frames.foldl (fun w f => processAudioForVAD cfg f.time f.amplitude f.buf w) w

/-! ## The spec's VAD scenario (C4) -/

/-- The scenario configuration: speech=80, silence=50,
silenceDuration=250ms, min=200ms, max=5000ms. -/
def scenarioConfig : VadConfig := ⟨80, 50, 250, 200, 5000, 1000⟩

/-- Loudness `[20,20,90,95,92,40,20,20,20,20]` at 100ms/frame,
frame i arriving at time 100·i with buffer id i. -/
def scenarioFrames : List VadFrame :=
  [⟨100, 20, 1⟩, ⟨200, 20, 2⟩, ⟨300, 90, 3⟩, ⟨400, 95, 4⟩, ⟨500, 92, 5⟩,
   ⟨600, 40, 6⟩, ⟨700, 20, 7⟩, ⟨800, 20, 8⟩, ⟨900, 20, 9⟩, ⟨1000, 20, 10⟩]

/-- C4 counterexample: the scenario produces exactly one dispatched
utterance, but its measured duration is 600 ms (frame 3's timestamp
to frame 9's), not the 700 ms the claim states. -/
theorem scenario_duration_not_700 :
    (vadRun scenarioConfig scenarioFrames initialVadWorld).dispatches =
      [⟨1, 600, .silence⟩] ∧
    (600 : ℤ) ≠ 700 := by
  exact ⟨by decide, by decide⟩

/-- C4 amended: the scenario yields exactly one completed utterance:
no utterance is open after frames 1-2, speech starts at frame 3
(utterance start time 300), the VAD is still speaking after frame 8,
silence is confirmed at frame 9 (sub-threshold frames 6-8 give 300 ms
≥ 250 ms since the silence timer was set at frame 6), and the
utterance is dispatched — not discarded — with duration
600 ms = t₉ − t₃ ≥ 200 ms and reason silence; frame 10 adds
nothing. -/
theorem scenario_one_utterance :
    (vadRun scenarioConfig (scenarioFrames.take 2) initialVadWorld).state.isActive
        = false ∧
    (vadRun scenarioConfig (scenarioFrames.take 2) initialVadWorld).dispatches
        = [] ∧
    (vadRun scenarioConfig (scenarioFrames.take 3)
        initialVadWorld).state.utteranceStart = some 300 ∧
    (vadRun scenarioConfig (scenarioFrames.take 3) initialVadWorld).state.isActive
        = true ∧
    (vadRun scenarioConfig (scenarioFrames.take 5)
        initialVadWorld).state.silenceStart = none ∧
    (vadRun scenarioConfig (scenarioFrames.take 6)
        initialVadWorld).state.silenceStart = some 600 ∧
    (vadRun scenarioConfig (scenarioFrames.take 8) initialVadWorld).state.isActive
        = true ∧
    (vadRun scenarioConfig (scenarioFrames.take 8) initialVadWorld).dispatches
        = [] ∧
    (vadRun scenarioConfig (scenarioFrames.take 9) initialVadWorld).state.isActive
        = false ∧
    (vadRun scenarioConfig scenarioFrames initialVadWorld).dispatches =
      [⟨1, 600, .silence⟩] ∧
    fsExists 1 (vadRun scenarioConfig scenarioFrames initialVadWorld).files
        = true ∧
    scenarioConfig.minUtteranceMs ≤ 600 := by
  refine ⟨by decide, by decide, by decide, by decide, by decide, by decide,
    by decide, by decide, by decide, by decide, by decide, by decide⟩

/-! ## File-system helper lemmas -/

theorem find?_map_keyInvariant (p : ℕ) (g : ℕ × List ℕ → ℕ × List ℕ)
    (hg : ∀ e, (g e).1 = e.1) :
    ∀ fs : List (ℕ × List ℕ),
      (fs.map g).find? (fun e => e.1 == p) =
        (fs.find? (fun e => e.1 == p)).map g
  | [] => rfl
  | e :: fs => by
      rw [List.map_cons]
      by_cases h : (e.1 == p) = true
      · have hg2 : ((g e).1 == p) = true := by rw [hg e]; exact h
        simp [List.find?, h, hg2]
      · have hg2 : ¬((g e).1 == p) = true := by rw [hg e]; exact h
        simp only [List.find?, Bool.not_eq_true] at h hg2 ⊢
        rw [h, hg2]
        exact find?_map_keyInvariant p g hg fs

theorem fsExists_find?_none (p : ℕ) (fs : List (ℕ × List ℕ))
    (h : fsExists p fs = false) :
    fs.find? (fun e => e.1 == p) = none := by
  rw [List.find?_eq_none]
  intro x hx hpx
  rw [fsExists] at h
  have : fs.any (fun e => e.1 == p) = true := List.any_eq_true.mpr ⟨x, hx, hpx⟩
  rw [h] at this
  cases this

theorem fsExists_find?_some (p : ℕ) (fs : List (ℕ × List ℕ))
    (h : fsExists p fs = true) :
    ∃ e, fs.find? (fun e => e.1 == p) = some e ∧ (e.1 == p) = true := by
  rw [fsExists, List.any_eq_true] at h
  obtain ⟨x, hx, hpx⟩ := h
  have hs : (fs.find? (fun e => e.1 == p)).isSome :=
    List.find?_isSome.mpr ⟨x, hx, hpx⟩
  obtain ⟨e, he⟩ := Option.isSome_iff_exists.mp hs
  have hp := List.find?_some he
  exact ⟨e, he, by simpa using hp⟩

theorem fsGet_fsAppend (p buf : ℕ) (fs : List (ℕ × List ℕ)) :
    fsGet p (fsAppend p buf fs) = some ((fsGet p fs).getD [] ++ [buf]) := by
  rw [fsAppend]
  by_cases hex : fsExists p fs = true
  · rw [if_pos hex, fsGet,
      find?_map_keyInvariant p _ (fun e => by by_cases h : (e.1 == p) = true <;> simp [h])]
    obtain ⟨e, he, hkey⟩ := fsExists_find?_some p fs hex
    have hkeq : e.1 = p := by simpa using hkey
    rw [he]
    simp [fsGet, he, hkeq]
  · rw [if_neg hex, fsGet, List.find?_append,
      fsExists_find?_none p fs (by simpa using hex)]
    simp [fsGet, fsExists_find?_none p fs (by simpa using hex)]

theorem fsGet_fsDelete (p : ℕ) (fs : List (ℕ × List ℕ)) :
    fsGet p (fsDelete p fs) = none := by
  rw [fsGet, fsDelete]
  have h : (fs.filter (fun e => !(e.1 == p))).find? (fun e => e.1 == p) = none := by
    rw [List.find?_eq_none]
    intro x hx hpx
    have := (List.mem_filter.mp hx).2
    rw [hpx] at this
    cases this
  rw [h]
  rfl

theorem fsExists_fsDelete (p : ℕ) (fs : List (ℕ × List ℕ)) :
    fsExists p (fsDelete p fs) = false := by
  rw [fsExists, List.any_eq_false]
  intro x hx hpx
  have := (List.mem_filter.mp hx).2
  rw [hpx] at this
  cases this

theorem fresh_fsWrite (b p : ℕ) (fs : List (ℕ × List ℕ))
    (h : ∀ e ∈ fs, b ∉ e.2) :
    ∀ e ∈ fsWrite p fs, b ∉ e.2 := by
  intro e he
  rw [fsWrite] at he
  by_cases hex : fsExists p fs = true
  · rw [if_pos hex] at he
    obtain ⟨x, hx, hgx⟩ := List.mem_map.mp he
    by_cases hk : (x.1 == p) = true
    · rw [if_pos hk] at hgx
      subst hgx
      simp
    · rw [if_neg hk] at hgx
      subst hgx
      exact h x hx
  · rw [if_neg hex] at he
    rcases List.mem_append.mp he with h1 | h2
    · exact h e h1
    · have : e = (p, []) := by simpa using h2
      subst this
      simp

theorem fresh_fsDelete (b p : ℕ) (fs : List (ℕ × List ℕ))
    (h : ∀ e ∈ fs, b ∉ e.2) :
    ∀ e ∈ fsDelete p fs, b ∉ e.2 := by
  intro e he
  exact h e (List.mem_filter.mp he).1

/-! ## Finalization (C5, C10) -/

theorem VadState.update_self (s : VadState) (h1 : s.isActive = false)
    (h2 : s.isSilence = true) (h3 : s.audioBuffers = []) :
    { s with isActive := false, isSilence := true, audioBuffers := [] } = s := by
  cases s
  simp_all

theorem finalizeUtterance_resets (cfg : VadConfig) (now : ℤ)
    (reason : VadReason) (w : VadWorld) :
    (finalizeUtterance cfg now reason w).state.isActive = false ∧
    (finalizeUtterance cfg now reason w).state.isSilence = true ∧
    (finalizeUtterance cfg now reason w).state.audioBuffers = [] := by
  rw [finalizeUtterance]
  split
  · exact ⟨rfl, rfl, rfl⟩
  · exact ⟨rfl, rfl, rfl⟩

/-- C5: whenever an active utterance is finalized — for any reason —
an utterance whose duration reaches `minUtteranceMs` is dispatched
downstream (appended to the dispatch log, its file kept), and a
shorter one is discarded: its file is deleted and the dispatch log is
unchanged. -/
theorem finalizeUtterance_dispatch_iff_min (cfg : VadConfig) (now : ℤ)
    (reason : VadReason) (w : VadWorld) (p : ℕ)
    (hact : w.state.isActive = true)
    (hstart : jsTimeFalsy w.state.utteranceStart = false)
    (hpath : w.state.audioPath = some p)
    (hex : fsExists p w.files = true) :
    (cfg.minUtteranceMs ≤ now - w.state.utteranceStart.getD 0 →
      (finalizeUtterance cfg now reason w).dispatches =
        w.dispatches ++ [⟨p, now - w.state.utteranceStart.getD 0, reason⟩] ∧
      (finalizeUtterance cfg now reason w).files = w.files) ∧
    (now - w.state.utteranceStart.getD 0 < cfg.minUtteranceMs →
      (finalizeUtterance cfg now reason w).dispatches = w.dispatches ∧
      fsExists p (finalizeUtterance cfg now reason w).files = false) := by
  rw [finalizeUtterance]
  rw [if_neg (by simp [hact, hstart])]
  simp only [hpath, hex]
  constructor
  · intro hmin
    rw [if_pos hmin]
    simp [hex]
  · intro hshort
    rw [if_neg (by omega)]
    simp [hex, fsExists_fsDelete]

/-- C5 witness: a 600 ms utterance is dispatched, and in a second
world a 100 ms utterance is discarded with its file deleted. -/
theorem finalizeUtterance_dispatch_iff_min_witness :
    ((finalizeUtterance defaultVadConfig 1600 .streamClosed
        ⟨⟨true, false, some 1000, none, [1], 1, 90, some 1, 1⟩, [(1, [1])], []⟩).dispatches =
      [⟨1, 600, .streamClosed⟩] ∧
     (finalizeUtterance defaultVadConfig 1600 .streamClosed
        ⟨⟨true, false, some 1000, none, [1], 1, 90, some 1, 1⟩, [(1, [1])], []⟩).files =
      [(1, [1])]) ∧
    ((finalizeUtterance defaultVadConfig 1100 .recordingStopped
        ⟨⟨true, false, some 1000, none, [1], 1, 90, some 1, 1⟩, [(1, [1])], []⟩).dispatches =
      [] ∧
     fsExists 1 (finalizeUtterance defaultVadConfig 1100 .recordingStopped
        ⟨⟨true, false, some 1000, none, [1], 1, 90, some 1, 1⟩, [(1, [1])], []⟩).files =
      false) := by
  constructor
  · have h := finalizeUtterance_dispatch_iff_min defaultVadConfig 1600 .streamClosed
      ⟨⟨true, false, some 1000, none, [1], 1, 90, some 1, 1⟩, [(1, [1])], []⟩ 1
      (by decide) (by decide) (by decide) (by decide)
    have h2 := h.1 (by decide)
    simpa using h2
  · have h := finalizeUtterance_dispatch_iff_min defaultVadConfig 1100 .recordingStopped
      ⟨⟨true, false, some 1000, none, [1], 1, 90, some 1, 1⟩, [(1, [1])], []⟩ 1
      (by decide) (by decide) (by decide) (by decide)
    have h2 := h.2 (by decide)
    simpa using h2

/-- C10: finalizing a source that is not in an active utterance
dispatches nothing, touches no file, and only resets the state to
inactive/silent with an empty frame buffer; and finalizing twice in
succession (at any later time, for any reason) equals finalizing
once. -/
theorem finalizeUtterance_inactive_idempotent (cfg : VadConfig)
    (now now2 : ℤ) (reason reason2 : VadReason) (w : VadWorld) :
    (w.state.isActive = false ∨ jsTimeFalsy w.state.utteranceStart = true →
      (finalizeUtterance cfg now reason w).dispatches = w.dispatches ∧
      (finalizeUtterance cfg now reason w).files = w.files ∧
      (finalizeUtterance cfg now reason w).state =
        { w.state with isActive := false, isSilence := true, audioBuffers := [] }) ∧
    finalizeUtterance cfg now2 reason2 (finalizeUtterance cfg now reason w) =
      finalizeUtterance cfg now reason w := by
  constructor
  · intro h
    have hcond : (!w.state.isActive || jsTimeFalsy w.state.utteranceStart) = true := by
      rcases h with h | h <;> simp [h]
    rw [finalizeUtterance, if_pos hcond]
    exact ⟨rfl, rfl, rfl⟩
  · obtain ⟨h1, h2, h3⟩ := finalizeUtterance_resets cfg now reason w
    rw [finalizeUtterance]
    rw [if_pos (by simp [h1])]
    rw [VadState.update_self _ h1 h2 h3]

/-- C10 witness: on the initial (inactive) world nothing is
dispatched, and a repeated finalization of a concrete active world
equals a single one. -/
theorem finalizeUtterance_inactive_idempotent_witness :
    ((initialVadWorld.state.isActive = false ∨
        jsTimeFalsy initialVadWorld.state.utteranceStart = true) ∧
      (finalizeUtterance defaultVadConfig 500 .silence initialVadWorld).dispatches =
        initialVadWorld.dispatches) ∧
    finalizeUtterance defaultVadConfig 900 .streamClosed
        (finalizeUtterance defaultVadConfig 500 .silence
          ⟨⟨true, false, some 100, none, [1], 1, 90, some 1, 1⟩, [(1, [1])], []⟩) =
      finalizeUtterance defaultVadConfig 500 .silence
        ⟨⟨true, false, some 100, none, [1], 1, 90, some 1, 1⟩, [(1, [1])], []⟩ := by
  constructor
  · refine ⟨Or.inl rfl, ?_⟩
    exact ((finalizeUtterance_inactive_idempotent defaultVadConfig 500 500
      .silence .silence initialVadWorld).1 (Or.inl rfl)).1
  · exact (finalizeUtterance_inactive_idempotent defaultVadConfig 500 900
      .silence .streamClosed
      ⟨⟨true, false, some 100, none, [1], 1, 90, some 1, 1⟩, [(1, [1])], []⟩).2

/-! ## Frames while Speaking (C1) -/

theorem fsExists_of_fsGet_some (p : ℕ) (fs : List (ℕ × List ℕ))
    (c : List ℕ) (h : fsGet p fs = some c) : fsExists p fs = true := by
  rw [fsGet] at h
  cases hfind : fs.find? (fun e => e.1 == p) with
  | none => rw [hfind] at h; cases h
  | some x =>
      have hmem := List.mem_of_find?_eq_some hfind
      have hkey := List.find?_some hfind
      rw [fsExists, List.any_eq_true]
      exact ⟨x, hmem, by simpa using hkey⟩

/-- C1 amended: while the VAD is Speaking (with the utterance file
`p` open, the frame buffer within the safety limit and `buf` not yet
recorded anywhere), a frame that does not trigger the max-duration
split has its raw bytes appended to the utterance file — unless this
very frame confirms silence on a too-short utterance, in which case
that whole file is deleted; and a frame with
`now − utteranceStart > maxUtteranceMs` force-finalizes the
utterance and, when its loudness is still above `speechThreshold`,
immediately opens a new utterance starting at this frame's
timestamp — but the triggering frame's bytes are appended to neither
the old nor the new file: they are dropped from the recordings. -/
theorem processAudioForVAD_speaking (cfg : VadConfig) (now : ℤ) (amp : ℚ)
    (buf : ℕ) (w : VadWorld) (p : ℕ)
    (hact : w.state.isActive = true)
    (hstart : jsTimeFalsy w.state.utteranceStart = false)
    (hlim : w.state.audioBuffers.length ≤ cfg.bufferLimit)
    (hp : w.state.audioPath = some p)
    (hex : fsExists p w.files = true)
    (hfresh : ∀ e ∈ w.files, buf ∉ e.2) :
    (now - w.state.utteranceStart.getD 0 ≤ cfg.maxUtteranceMs →
      fsGet p (processAudioForVAD cfg now amp buf w).files =
          some ((fsGet p w.files).getD [] ++ [buf]) ∨
        (amp < cfg.silenceThreshold ∧
          (processAudioForVAD cfg now amp buf w).state.isActive = false ∧
          fsGet p (processAudioForVAD cfg now amp buf w).files = none)) ∧
    (cfg.maxUtteranceMs < now - w.state.utteranceStart.getD 0 →
      (∀ e ∈ (processAudioForVAD cfg now amp buf w).files, buf ∉ e.2) ∧
      (cfg.speechThreshold < amp →
        (processAudioForVAD cfg now amp buf w).state.isActive = true ∧
        (processAudioForVAD cfg now amp buf w).state.utteranceStart = some now ∧
        (processAudioForVAD cfg now amp buf w).state.audioPath =
          some (w.state.utteranceCount + 1)) ∧
      (¬cfg.speechThreshold < amp →
        (processAudioForVAD cfg now amp buf w).state.isActive = false)) := by
  have hnl : ¬(cfg.bufferLimit < w.state.audioBuffers.length) := not_lt.mpr hlim
  constructor
  · intro hdur
    have hnmax : ¬(cfg.maxUtteranceMs < now - w.state.utteranceStart.getD 0) :=
      not_lt.mpr hdur
    by_cases hsil : amp < cfg.silenceThreshold
    · by_cases hiss : w.state.isSilence = true
      · by_cases hlong :
            cfg.silenceDurationMs < now - w.state.silenceStart.getD 0
        · by_cases hmin :
              cfg.minUtteranceMs ≤ now - w.state.utteranceStart.getD 0
          · left
            simp [processAudioForVAD, finalizeUtterance, hnl, hact, hstart, hp,
              hnmax, hsil, hiss, hlong, hmin, fsGet_fsAppend,
              fsExists_of_fsGet_some p _ _ (fsGet_fsAppend p buf w.files)]
          · right
            refine ⟨hsil, ?_, ?_⟩
            · simp [processAudioForVAD, finalizeUtterance, hnl, hact, hstart,
                hp, hnmax, hsil, hiss, hlong, hmin]
            · simp [processAudioForVAD, finalizeUtterance, hnl, hact, hstart,
                hp, hnmax, hsil, hiss, hlong, hmin,
                fsExists_of_fsGet_some p _ _ (fsGet_fsAppend p buf w.files),
                fsGet_fsDelete]
        · left
          simp [processAudioForVAD, hnl, hact, hstart, hp, hnmax, hsil, hiss,
            hlong, fsGet_fsAppend]
      · left
        simp [processAudioForVAD, hnl, hact, hstart, hp, hnmax, hsil, hiss,
          fsGet_fsAppend]
    · left
      by_cases hiss : w.state.isSilence = true <;>
        simp [processAudioForVAD, hnl, hact, hstart, hp, hnmax, hsil, hiss,
          fsGet_fsAppend]
  · intro hmax
    by_cases hsp : cfg.speechThreshold < amp
    · by_cases hmin :
          cfg.minUtteranceMs ≤ now - w.state.utteranceStart.getD 0
      · refine ⟨?_, fun _ => ?_, fun hn => absurd hsp hn⟩
        · simp [processAudioForVAD, finalizeUtterance, hnl, hact, hstart, hp,
            hex, hmax, hsp, hmin]
          intro a b hab
          exact fresh_fsWrite buf (w.state.utteranceCount + 1) w.files hfresh
            ⟨a, b⟩ hab
        · simp [processAudioForVAD, finalizeUtterance, hnl, hact, hstart, hp,
            hex, hmax, hsp, hmin]
      · refine ⟨?_, fun _ => ?_, fun hn => absurd hsp hn⟩
        · simp [processAudioForVAD, finalizeUtterance, hnl, hact, hstart, hp,
            hex, hmax, hsp, hmin]
          intro a b hab
          exact fresh_fsWrite buf (w.state.utteranceCount + 1)
            (fsDelete p w.files) (fresh_fsDelete buf p w.files hfresh)
            ⟨a, b⟩ hab
        · simp [processAudioForVAD, finalizeUtterance, hnl, hact, hstart, hp,
            hex, hmax, hsp, hmin]
    · by_cases hmin :
          cfg.minUtteranceMs ≤ now - w.state.utteranceStart.getD 0
      · refine ⟨?_, fun hy => absurd hy hsp, fun _ => ?_⟩
        · simp [processAudioForVAD, finalizeUtterance, hnl, hact, hstart, hp,
            hex, hmax, hsp, hmin]
          intro a b hab
          exact hfresh ⟨a, b⟩ hab
        · simp [processAudioForVAD, finalizeUtterance, hnl, hact, hstart, hp,
            hex, hmax, hsp, hmin]
      · refine ⟨?_, fun hy => absurd hy hsp, fun _ => ?_⟩
        · simp [processAudioForVAD, finalizeUtterance, hnl, hact, hstart, hp,
            hex, hmax, hsp, hmin]
          intro a b hab
          exact fresh_fsDelete buf p w.files hfresh ⟨a, b⟩ hab
        · simp [processAudioForVAD, finalizeUtterance, hnl, hact, hstart, hp,
          hex, hmax, hsp, hmin]

/-- C1 counterexample: with the source constants
(max 15000 ms), frames of loudness 90 at times 1000, 9000 and 17000:
the VAD is Speaking when frame 3 arrives, frame 3 exceeds the
maximum duration, the utterance is force-finalized (dispatched with
reason max-duration) and a new utterance opens at 17000 — but frame
3's bytes are recorded in neither the old file (which holds only
frame 2) nor the new file (which is empty): they are dropped,
contradicting the claim. -/
theorem maxDuration_frame_dropped :
    (vadRun defaultVadConfig [⟨1000, 90, 1⟩, ⟨9000, 90, 2⟩]
        initialVadWorld).state.isActive = true ∧
    defaultVadConfig.maxUtteranceMs <
      17000 - ((vadRun defaultVadConfig [⟨1000, 90, 1⟩, ⟨9000, 90, 2⟩]
        initialVadWorld).state.utteranceStart.getD 0) ∧
    (vadRun defaultVadConfig [⟨1000, 90, 1⟩, ⟨9000, 90, 2⟩, ⟨17000, 90, 3⟩]
        initialVadWorld).dispatches = [⟨1, 16000, .maxDuration⟩] ∧
    (vadRun defaultVadConfig [⟨1000, 90, 1⟩, ⟨9000, 90, 2⟩, ⟨17000, 90, 3⟩]
        initialVadWorld).state.isActive = true ∧
    (vadRun defaultVadConfig [⟨1000, 90, 1⟩, ⟨9000, 90, 2⟩, ⟨17000, 90, 3⟩]
        initialVadWorld).state.utteranceStart = some 17000 ∧
    (vadRun defaultVadConfig [⟨1000, 90, 1⟩, ⟨9000, 90, 2⟩, ⟨17000, 90, 3⟩]
        initialVadWorld).files = [(1, [2]), (2, [])] ∧
    (∀ e ∈ (vadRun defaultVadConfig
        [⟨1000, 90, 1⟩, ⟨9000, 90, 2⟩, ⟨17000, 90, 3⟩]
        initialVadWorld).files, 3 ∉ e.2) := by
  decide

/-- C1 witness: the amended theorem applied at a concrete Speaking
world — an in-range frame's bytes are appended to the open file. -/
theorem processAudioForVAD_speaking_witness :
    fsGet 1 (processAudioForVAD defaultVadConfig 2000 90 2
        ⟨⟨true, false, some 1000, none, [1], 1, 90, some 1, 1⟩,
          [(1, [1])], []⟩).files = some [1, 2] := by
  have h := (processAudioForVAD_speaking defaultVadConfig 2000 90 2
      ⟨⟨true, false, some 1000, none, [1], 1, 90, some 1, 1⟩, [(1, [1])], []⟩ 1
      (by decide) (by decide) (by decide) (by decide) (by decide)
      (by decide)).1 (by decide)
  rcases h with h | h
  · have he : (fsGet 1 [(1, [1])]).getD [] ++ [2] = [1, 2] := by decide
    rw [he] at h
    exact h
  · exact absurd h.1 (by decide)

/-! ## Silence hysteresis (C6) -/

theorem finalizeUtterance_isActive (cfg : VadConfig) (now : ℤ)
    (reason : VadReason) (w : VadWorld) :
    (finalizeUtterance cfg now reason w).state.isActive = false :=
  (finalizeUtterance_resets cfg now reason w).1

/-- C6: while Speaking (frame within the buffer limit and the
maximum duration), the utterance is finalized by this frame — the
only finalization on this path carries reason silence — exactly when
the frame is below `silenceThreshold`, the silence timer was already
running, and more than `silenceDurationMs` has elapsed since
`silenceStartTime`; and any frame at or above `silenceThreshold`
(in particular any frame back above `speechThreshold`) leaves the
VAD Speaking with the silence timer cleared to unset. -/
theorem processAudioForVAD_silence_hysteresis (cfg : VadConfig) (now : ℤ)
    (amp : ℚ) (buf : ℕ) (w : VadWorld)
    (hact : w.state.isActive = true)
    (hstart : jsTimeFalsy w.state.utteranceStart = false)
    (hlim : w.state.audioBuffers.length ≤ cfg.bufferLimit)
    (hnmax : now - w.state.utteranceStart.getD 0 ≤ cfg.maxUtteranceMs)
    (hinv : w.state.isSilence = false → w.state.silenceStart = none) :
    ((processAudioForVAD cfg now amp buf w).state.isActive = false ↔
      amp < cfg.silenceThreshold ∧ w.state.isSilence = true ∧
        cfg.silenceDurationMs < now - w.state.silenceStart.getD 0) ∧
    (¬amp < cfg.silenceThreshold →
      (processAudioForVAD cfg now amp buf w).state.isActive = true ∧
      (processAudioForVAD cfg now amp buf w).state.isSilence = false ∧
      (processAudioForVAD cfg now amp buf w).state.silenceStart = none) := by
  have hnl : ¬(cfg.bufferLimit < w.state.audioBuffers.length) := not_lt.mpr hlim
  have hnmax2 : ¬(cfg.maxUtteranceMs < now - w.state.utteranceStart.getD 0) :=
    not_lt.mpr hnmax
  rcases hpa : w.state.audioPath with _ | p
  all_goals
    by_cases hsil : amp < cfg.silenceThreshold
    · by_cases hiss : w.state.isSilence = true
      · by_cases hlong : cfg.silenceDurationMs < now - w.state.silenceStart.getD 0
        · constructor
          · simp [processAudioForVAD, hnl, hact, hstart, hnmax2, hsil, hiss,
              hlong, hpa, finalizeUtterance_isActive]
          · intro hn
            exact absurd hsil hn
        · constructor
          · simp [processAudioForVAD, hnl, hact, hstart, hnmax2, hsil, hiss,
              hlong, hpa]
          · intro hn
            exact absurd hsil hn
      · constructor
        · simp [processAudioForVAD, hnl, hact, hstart, hnmax2, hsil, hiss, hpa]
        · intro hn
          exact absurd hsil hn
    · constructor
      · by_cases hiss : w.state.isSilence = true <;>
          simp [processAudioForVAD, hnl, hact, hstart, hnmax2, hsil, hiss, hpa]
      · intro _
        by_cases hiss : w.state.isSilence = true
        · simp [processAudioForVAD, hnl, hact, hstart, hnmax2, hsil, hiss, hpa]
        · have hss := hinv (by simpa using hiss)
          simp [processAudioForVAD, hnl, hact, hstart, hnmax2, hsil, hiss,
            hss, hpa]

/-- C6 witness: the theorem applied at a concrete Speaking world: a
frame of loudness 60 (between the thresholds) keeps the VAD speaking
and unsets the silence timer, and the silence-confirmation condition
characterizes the finalization. -/
theorem processAudioForVAD_silence_hysteresis_witness :
    (processAudioForVAD defaultVadConfig 2000 60 2
        ⟨⟨true, true, some 1000, some 1500, [1], 1, 40, some 1, 1⟩,
          [(1, [1])], []⟩).state.isActive = true ∧
    (processAudioForVAD defaultVadConfig 2000 60 2
        ⟨⟨true, true, some 1000, some 1500, [1], 1, 40, some 1, 1⟩,
          [(1, [1])], []⟩).state.isSilence = false ∧
    (processAudioForVAD defaultVadConfig 2000 60 2
        ⟨⟨true, true, some 1000, some 1500, [1], 1, 40, some 1, 1⟩,
          [(1, [1])], []⟩).state.silenceStart = none := by
  exact (processAudioForVAD_silence_hysteresis defaultVadConfig 2000 60 2
    ⟨⟨true, true, some 1000, some 1500, [1], 1, 40, some 1, 1⟩, [(1, [1])], []⟩
    (by decide) (by decide) (by decide) (by decide) (by decide)).2 (by decide)

/-! ## Transcript reconciler

The transcript mutation of `transcribeAudioChunk` (main.js 2792-2848,
identical to the copy at 1087-1143) together with
`findLatestTranscriptFromSource` (2591-2598) and `processTranscript`
(2606-2632).  Entries mirror the shape pushed at 2829-2835.  The
JavaScript `Array.prototype.sort` with comparator
`(a, b) => a.timestamp - b.timestamp` is a stable ascending sort by
`timestamp`; it is modelled by the stable `List.insertionSort`. -/

/-- One transcript entry: `{id, timestamp, lastUpdated, source, text}`
(main.js 2553, 2829-2835). -/
structure TEntry where
  id : ℤ
  timestamp : ℤ
  lastUpdated : ℤ
  source : String
  text : String
deriving DecidableEq, Repr

/-- The reconciler constants (main.js 50-52); parameters of the
model, with the source constants as defaults. -/
structure ReconcilerConfig where
  similarityThreshold : ℚ
  continuationWindowMs : ℤ
  maxEntries : ℕ
deriving DecidableEq, Repr

/-- Source constants `TRANSCRIPT_SIMILARITY_THRESHOLD = 0.5`,
`TRANSCRIPT_CONTINUATION_WINDOW = 10000`,
`MAX_TRANSCRIPT_ENTRIES = 100`. -/
def defaultReconcilerConfig : ReconcilerConfig := ⟨1 / 2, 10000, 100⟩

/-- Model of `findLatestTranscriptFromSource` (main.js 2591-2598): backward
scan for the last entry with the given source. -/
def findLatestTranscriptFromSource (source : String) :
    List TEntry → Option TEntry
  | [] => none
  | e :: rest =>
      match findLatestTranscriptFromSource source rest with
      | some r => some r
      | none => if e.source == source then some e else none

/-- The decision of `processTranscript`. -/
inductive TranscriptAction
  | ignore
  | append
  | create
deriving DecidableEq, Repr

/-- Model of `processTranscript` (main.js 2606-2632). -/
def processTranscript (cfg : ReconcilerConfig) (newText source : String)
    (now : ℤ) (buf : List TEntry) : TranscriptAction :=
  match findLatestTranscriptFromSource source buf with
  | none => .create
  | some latest =>
      let similarity := calculateTextSimilarity latest.text newText
      if cfg.similarityThreshold < similarity then .ignore
      else if now - latest.lastUpdated ≤ cfg.continuationWindowMs then .append
      else .create

/-- The in-place mutation of the `append` branch (main.js 2805-2824):
append only when the new text adds information; the source computes a
join character which is a single space on both branches. -/
def appendUpdate (now : ℤ) (text : String) (latest : TEntry) : TEntry :=
  if latest.text.length < text.length ∨
      ¬charsIncludes latest.text.data text.data then
    { latest with text := latest.text ++ " " ++ text, lastUpdated := now }
  else latest

/-- Replace the last entry with the given source (the object mutated
through the reference returned by the backward scan). -/
def updateLatestFromSource (source : String) (f : TEntry → TEntry) :
    List TEntry → List TEntry
  | [] => []
  | e :: rest =>
      match findLatestTranscriptFromSource source rest with
      | some _ => e :: updateLatestFromSource source f rest
      | none => if e.source == source then f e :: rest else e :: rest

/-- Entry order used by the transcript sort. -/
def tsLE (a b : TEntry) : Prop := a.timestamp ≤ b.timestamp

instance : DecidableRel tsLE := fun a b =>
  inferInstanceAs (Decidable (a.timestamp ≤ b.timestamp))

instance : IsTotal TEntry tsLE := ⟨fun a b => le_total a.timestamp b.timestamp⟩

instance : IsTrans TEntry tsLE :=
  ⟨fun _ _ _ hab hbc => le_trans hab hbc⟩

/-- Model of `transcriptBuffer.sort((a, b) => a.timestamp - b.timestamp)`
(main.js 2838): stable ascending sort by `timestamp`. -/
def sortByTimestamp (l : List TEntry) : List TEntry := List.insertionSort tsLE l

/-- The transcript is chronologically ordered. -/
def tsSorted (l : List TEntry) : Prop := List.Pairwise tsLE l

instance (l : List TEntry) : Decidable (tsSorted l) :=
  inferInstanceAs (Decidable (List.Pairwise tsLE l))

/-- The transcript mutation performed by `transcribeAudioChunk` on a
non-empty trimmed transcription `text` from `source` at time `now`
with fresh id `id` (main.js 2792-2848): ignore, append in place, or
push a new entry, re-sort, and drop the oldest entry when the cap is
exceeded. -/
def applyTranscriptionResult (cfg : ReconcilerConfig) (text source : String)
    (now id : ℤ) (buf : List TEntry) : List TEntry :=
  match processTranscript cfg text source now buf with
  | .ignore => buf
  | .append => updateLatestFromSource source (appendUpdate now text) buf
  | .create =>
      let buf2 := sortByTimestamp (buf ++ [⟨id, now, now, source, text⟩])
      if cfg.maxEntries < buf2.length then buf2.drop 1 else buf2

theorem findLatest_source (s : String) :
    ∀ (l : List TEntry) (e : TEntry),
      findLatestTranscriptFromSource s l = some e → e.source = s
  | [], e => by intro h; cases h
  | x :: rest, e => by
      intro h
      rw [findLatestTranscriptFromSource] at h
      cases hr : findLatestTranscriptFromSource s rest with
      | some r =>
          rw [hr] at h
          cases h
          exact findLatest_source s rest _ hr
      | none =>
          rw [hr] at h
          by_cases hx : (x.source == s) = true
          · rw [if_pos hx] at h
            cases h
            simpa using hx
          · rw [if_neg hx] at h
            cases h

theorem findLatest_none (s : String) :
    ∀ l : List TEntry,
      findLatestTranscriptFromSource s l = none → ∀ x ∈ l, x.source ≠ s
  | [] => by intro _ x hx; cases hx
  | e :: rest => by
      intro h x hx
      rw [findLatestTranscriptFromSource] at h
      cases hr : findLatestTranscriptFromSource s rest with
      | some r => rw [hr] at h; cases h
      | none =>
          rw [hr] at h
          by_cases he : (e.source == s) = true
          · rw [if_pos he] at h; cases h
          · rcases List.mem_cons.mp hx with h1 | h2
            · subst h1
              simpa using he
            · exact findLatest_none s rest hr x h2

theorem updateLatest_decomp (s : String) (f : TEntry → TEntry) :
    ∀ (l : List TEntry) (e : TEntry),
      findLatestTranscriptFromSource s l = some e →
      ∃ pre post, l = pre ++ e :: post ∧ (∀ x ∈ post, x.source ≠ s) ∧
        updateLatestFromSource s f l = pre ++ f e :: post
  | [], e => by intro h; cases h
  | x :: rest, e => by
      intro h
      rw [findLatestTranscriptFromSource] at h
      cases hr : findLatestTranscriptFromSource s rest with
      | some r =>
          rw [hr] at h
          cases h
          obtain ⟨pre, post, hl, hpost, hupd⟩ := updateLatest_decomp s f rest e hr
          refine ⟨x :: pre, post, by rw [hl]; rfl, hpost, ?_⟩
          rw [updateLatestFromSource, hr, hupd]
          rfl
      | none =>
          rw [hr] at h
          by_cases hx : (x.source == s) = true
          · rw [if_pos hx] at h
            cases h
            refine ⟨[], rest, rfl, findLatest_none s rest hr, ?_⟩
            rw [updateLatestFromSource, hr, if_pos hx]
            rfl
          · rw [if_neg hx] at h
            cases h

theorem appendUpdate_fields (now : ℤ) (text : String) (e : TEntry) :
    (appendUpdate now text e).id = e.id ∧
    (appendUpdate now text e).source = e.source ∧
    (appendUpdate now text e).timestamp = e.timestamp := by
  rw [appendUpdate]
  split
  · exact ⟨rfl, rfl, rfl⟩
  · exact ⟨rfl, rfl, rfl⟩

theorem decision_append_findLatest (cfg : ReconcilerConfig)
    (text s : String) (now : ℤ) (buf : List TEntry)
    (h : processTranscript cfg text s now buf = .append) :
    ∃ e, findLatestTranscriptFromSource s buf = some e := by
  rw [processTranscript] at h
  cases hr : findLatestTranscriptFromSource s buf with
  | none => rw [hr] at h; cases h
  | some e => exact ⟨e, rfl⟩

/-- C9: when the reconciler decides Append, the transcript buffer is
split as `pre ++ e :: post` where `e` is the last entry from the
source (`post` holds no entry of that source), and the result is
`pre ++ e2 :: post` with `e2` the in-place update of `e`: the id,
source and createdAt of the target are unchanged, every other entry
is unchanged, and the mutated entry keeps its position. -/
theorem append_mutates_only_target (cfg : ReconcilerConfig)
    (text s : String) (now id : ℤ) (buf : List TEntry)
    (hdec : processTranscript cfg text s now buf = .append) :
    ∃ pre e post,
      buf = pre ++ e :: post ∧ e.source = s ∧ (∀ x ∈ post, x.source ≠ s) ∧
      applyTranscriptionResult cfg text s now id buf =
        pre ++ appendUpdate now text e :: post ∧
      (appendUpdate now text e).id = e.id ∧
      (appendUpdate now text e).source = e.source ∧
      (appendUpdate now text e).timestamp = e.timestamp := by
  obtain ⟨e, he⟩ := decision_append_findLatest cfg text s now buf hdec
  obtain ⟨pre, post, hl, hpost, hupd⟩ :=
    updateLatest_decomp s (appendUpdate now text) buf e he
  obtain ⟨h1, h2, h3⟩ := appendUpdate_fields now text e
  refine ⟨pre, e, post, hl, findLatest_source s buf e he, hpost, ?_, h1, h2, h3⟩
  rw [applyTranscriptionResult, hdec, hupd]

/-- C9 witness: a concrete Append (equal text within the
continuation window, with a similarity threshold of 2 so the
duplicate check does not fire) mutating the single same-source
entry. -/
theorem append_mutates_only_target_witness :
    processTranscript ⟨2, 10000, 100⟩ "hello" "near" 2000
        [⟨1, 0, 0, "near", "hello"⟩] = .append ∧
    ∃ pre e post,
      [⟨1, 0, 0, "near", "hello"⟩] = pre ++ e :: post ∧
      e.source = "near" ∧ (∀ x ∈ post, x.source ≠ "near") ∧
      applyTranscriptionResult ⟨2, 10000, 100⟩ "hello" "near" 2000 7
          [⟨1, 0, 0, "near", "hello"⟩] =
        pre ++ appendUpdate 2000 "hello" e :: post ∧
      (appendUpdate 2000 "hello" e).id = e.id ∧
      (appendUpdate 2000 "hello" e).source = e.source ∧
      (appendUpdate 2000 "hello" e).timestamp = e.timestamp :=
  ⟨by decide,
    append_mutates_only_target ⟨2, 10000, 100⟩ "hello" "near" 2000 7
      [⟨1, 0, 0, "near", "hello"⟩] (by decide)⟩

/-- C8: the candidate entry for Ignore/Append is always the most
recent entry with the same source (it has that source and nothing
after it in the buffer has it), and every entry of the reconciled
buffer is an untouched old entry, the newly created entry, or an
in-place update of a same-source entry — consequently an entry whose
source differs from the result's source is never mutated, so entries
from different sources never merge. -/
theorem reconcile_no_cross_source_merge (cfg : ReconcilerConfig)
    (text s : String) (now id : ℤ) (buf : List TEntry) :
    (∀ e, findLatestTranscriptFromSource s buf = some e →
      e.source = s ∧
        ∃ pre post, buf = pre ++ e :: post ∧ ∀ x ∈ post, x.source ≠ s) ∧
    (∀ e2 ∈ applyTranscriptionResult cfg text s now id buf,
      e2 ∈ buf ∨ e2 = ⟨id, now, now, s, text⟩ ∨
        ∃ e ∈ buf, e.source = s ∧ e2 = appendUpdate now text e) ∧
    (∀ e2 ∈ applyTranscriptionResult cfg text s now id buf,
      e2.source ≠ s → e2 ∈ buf) := by
  have hmain :
      ∀ e2 ∈ applyTranscriptionResult cfg text s now id buf,
        e2 ∈ buf ∨ e2 = ⟨id, now, now, s, text⟩ ∨
          ∃ e ∈ buf, e.source = s ∧ e2 = appendUpdate now text e := by
    intro e2 he2
    rw [applyTranscriptionResult] at he2
    cases hdec : processTranscript cfg text s now buf with
    | ignore =>
        rw [hdec] at he2
        exact Or.inl he2
    | append =>
        rw [hdec] at he2
        obtain ⟨e, he⟩ := decision_append_findLatest cfg text s now buf hdec
        obtain ⟨pre, post, hl, _, hupd⟩ :=
          updateLatest_decomp s (appendUpdate now text) buf e he
        rw [hupd] at he2
        rcases List.mem_append.mp he2 with h1 | h2
        · exact Or.inl (by rw [hl]; exact List.mem_append.mpr (Or.inl h1))
        · rcases List.mem_cons.mp h2 with h3 | h4
          · refine Or.inr (Or.inr ⟨e, ?_, findLatest_source s buf e he, h3⟩)
            rw [hl]
            simp
          · exact Or.inl (by rw [hl]; simp [h4])
    | create =>
        rw [hdec] at he2
        have hsub : e2 ∈ sortByTimestamp (buf ++ [⟨id, now, now, s, text⟩]) := by
          by_cases hc : cfg.maxEntries <
              (sortByTimestamp (buf ++ [⟨id, now, now, s, text⟩])).length
          · rw [if_pos hc] at he2
            exact (List.drop_sublist 1 _).mem he2
          · rw [if_neg hc] at he2
            exact he2
        have hmem : e2 ∈ buf ++ [⟨id, now, now, s, text⟩] :=
          (List.perm_insertionSort tsLE _).mem_iff.mp hsub
        rcases List.mem_append.mp hmem with h1 | h2
        · exact Or.inl h1
        · exact Or.inr (Or.inl (by simpa using h2))
  refine ⟨?_, hmain, ?_⟩
  · intro e he
    obtain ⟨pre, post, hl, hpost, _⟩ :=
      updateLatest_decomp s (appendUpdate now text) buf e he
    exact ⟨findLatest_source s buf e he, pre, post, hl, hpost⟩
  · intro e2 he2 hsrc
    rcases hmain e2 he2 with h1 | h2 | h3
    · exact h1
    · exact absurd (by rw [h2]) hsrc
    · obtain ⟨e, _, hes, he2e⟩ := h3
      have := (appendUpdate_fields now text e).2.1
      rw [he2e] at hsrc
      rw [this, hes] at hsrc
      exact absurd rfl hsrc

/-- C8 witness: the spec scenario — reconcile "foo" from "near" at
t=0, then "bar" from "far" at t=50: two independent entries in
chronological order, and the theorem applied to the second call shows
the "far" result did not touch the "near" entry. -/
theorem reconcile_no_cross_source_merge_witness :
    applyTranscriptionResult defaultReconcilerConfig "bar" "far" 50 2
        (applyTranscriptionResult defaultReconcilerConfig "foo" "near" 0 1 []) =
      [⟨1, 0, 0, "near", "foo"⟩, ⟨2, 50, 50, "far", "bar"⟩] ∧
    (⟨1, 0, 0, "near", "foo"⟩ : TEntry) ∈
      [(⟨1, 0, 0, "near", "foo"⟩ : TEntry)] := by
  constructor
  · decide
  · exact (reconcile_no_cross_source_merge defaultReconcilerConfig "bar" "far"
      50 2 [⟨1, 0, 0, "near", "foo"⟩]).2.2 ⟨1, 0, 0, "near", "foo"⟩
      (by decide) (by decide)

theorem tsSorted_iff_map (l : List TEntry) :
    tsSorted l ↔ (l.map TEntry.timestamp).Pairwise (· ≤ ·) := by
  rw [tsSorted, List.pairwise_map]
  rfl

theorem tsSorted_replace (pre post : List TEntry) (e e2 : TEntry)
    (hts : e2.timestamp = e.timestamp)
    (h : tsSorted (pre ++ e :: post)) : tsSorted (pre ++ e2 :: post) := by
  rw [tsSorted_iff_map] at h ⊢
  have hm : (pre ++ e2 :: post).map TEntry.timestamp =
      (pre ++ e :: post).map TEntry.timestamp := by
    simp [hts]
  rw [hm]
  exact h

/-- C7: starting from a chronologically sorted transcript within the
entry cap, any reconciliation (Ignore, Append in place, or Create
with its re-sort and possible eviction) leaves the transcript sorted
by `createdAt` and within the cap; and when a Create overflows the
cap, exactly one entry — one with minimal `createdAt` — is evicted,
the rest being a permutation-complement of the buffer plus the new
entry. -/
theorem transcript_sorted_capped (cfg : ReconcilerConfig)
    (text source : String) (now id : ℤ) (buf : List TEntry)
    (hsorted : tsSorted buf) (hcap : buf.length ≤ cfg.maxEntries) :
    tsSorted (applyTranscriptionResult cfg text source now id buf) ∧
    (applyTranscriptionResult cfg text source now id buf).length ≤
      cfg.maxEntries ∧
    (processTranscript cfg text source now buf = .create ∧
        cfg.maxEntries < buf.length + 1 →
      ∃ m, (m :: applyTranscriptionResult cfg text source now id buf).Perm
          (buf ++ [⟨id, now, now, source, text⟩]) ∧
        ∀ x ∈ buf ++ [⟨id, now, now, source, text⟩],
          m.timestamp ≤ x.timestamp) := by
  cases hdec : processTranscript cfg text source now buf with
  | ignore =>
      rw [applyTranscriptionResult, hdec]
      refine ⟨hsorted, hcap, ?_⟩
      intro h
      cases h.1
  | append =>
      obtain ⟨e, he⟩ := decision_append_findLatest cfg text source now buf hdec
      obtain ⟨pre, post, hl, _, hupd⟩ :=
        updateLatest_decomp source (appendUpdate now text) buf e he
      rw [applyTranscriptionResult, hdec, hupd]
      refine ⟨?_, ?_, ?_⟩
      · exact tsSorted_replace pre post e _
          (appendUpdate_fields now text e).2.2 (hl ▸ hsorted)
      · have : (pre ++ appendUpdate now text e :: post).length = buf.length := by
          rw [hl]
          simp
        rw [this]
        exact hcap
      · intro h
        cases h.1
  | create =>
      have hlen2 : (sortByTimestamp
          (buf ++ [⟨id, now, now, source, text⟩])).length = buf.length + 1 := by
        rw [sortByTimestamp, List.length_insertionSort, List.length_append]
        rfl
      have hsorted2 : tsSorted (sortByTimestamp
          (buf ++ [⟨id, now, now, source, text⟩])) :=
        List.sorted_insertionSort tsLE _
      have hperm2 : (sortByTimestamp
          (buf ++ [⟨id, now, now, source, text⟩])).Perm
            (buf ++ [⟨id, now, now, source, text⟩]) :=
        List.perm_insertionSort tsLE _
      rw [applyTranscriptionResult, hdec]
      by_cases hc : cfg.maxEntries <
          (sortByTimestamp (buf ++ [⟨id, now, now, source, text⟩])).length
      · rw [if_pos hc]
        refine ⟨List.Pairwise.sublist (List.drop_sublist 1 _) hsorted2, ?_, ?_⟩
        · rw [List.length_drop, hlen2]
          omega
        · intro _
          cases hb2 : sortByTimestamp (buf ++ [⟨id, now, now, source, text⟩]) with
          | nil => rw [hb2] at hlen2; cases hlen2
          | cons m rest =>
              rw [hb2] at hperm2 hsorted2
              refine ⟨m, hperm2, ?_⟩
              intro x hx
              have hx2 : x ∈ m :: rest := hperm2.mem_iff.mpr hx
              rcases List.mem_cons.mp hx2 with h1 | h2
              · rw [h1]
              · exact (List.pairwise_cons.mp hsorted2).1 x h2
      · rw [if_neg hc]
        have hle : (sortByTimestamp
            (buf ++ [⟨id, now, now, source, text⟩])).length ≤ cfg.maxEntries :=
          not_lt.mp hc
        refine ⟨hsorted2, hle, ?_⟩
        intro h
        rw [hlen2] at hc
        exact absurd h.2 hc

/-- C7 witness: a Create on an empty transcript stays sorted and
within the cap, and with a cap of 1 a Create on a full transcript
evicts exactly the oldest entry. -/
theorem transcript_sorted_capped_witness :
    (tsSorted (applyTranscriptionResult defaultReconcilerConfig
        "hello" "near" 0 1 []) ∧
      (applyTranscriptionResult defaultReconcilerConfig
        "hello" "near" 0 1 []).length ≤ defaultReconcilerConfig.maxEntries) ∧
    ∃ m, (m :: applyTranscriptionResult ⟨1 / 2, 10000, 1⟩ "bar" "far" 50 2
        [⟨1, 0, 0, "near", "foo"⟩]).Perm
          ([⟨1, 0, 0, "near", "foo"⟩] ++ [⟨2, 50, 50, "far", "bar"⟩]) ∧
      ∀ x ∈ [⟨1, 0, 0, "near", "foo"⟩] ++ [(⟨2, 50, 50, "far", "bar"⟩ : TEntry)],
        m.timestamp ≤ x.timestamp := by
  constructor
  · have h := transcript_sorted_capped defaultReconcilerConfig "hello" "near"
      0 1 [] (by decide) (by decide)
    exact ⟨h.1, h.2.1⟩
  · exact (transcript_sorted_capped ⟨1 / 2, 10000, 1⟩ "bar" "far" 50 2
      [⟨1, 0, 0, "near", "foo"⟩] (by decide) (by decide)).2.2
      ⟨by decide, by decide⟩

end MeetingMind
